import Mathlib

/-!
Verification development for the request-pipeline core of the `bob`
HTTP reverse proxy.  The Rust sources are shallowly embedded: bytes are
`Nat`, byte strings are `List Nat`, streams are the lists of chunks they
have yet to yield, and stateful structures are records passed explicitly.
Components that live outside the embedded sources (the `actix-chain`
crate's `Chain`/`Link` runtime and actix route dispatch) are modelled from
the specification and are marked `Modelled from the spec:` in their doc
comments.
-/

namespace Bob

/-- A chunk of bytes produced by a payload stream. -/
abbrev Chunk := List Nat

/-- Embedding of `PayloadBuffer` from `src/modules/payload.rs`.
The upstream one-shot stream is modelled as the list of chunks it has yet
to yield (`pending`).  `buf` is the internal replay buffer, `cursor` the
reader position, and `body_buffer_size` the soft cap. -/
structure PayloadBuffer where
  pending : List Chunk
  buf : List Nat
  eof : Bool
  overflow : Bool
  cursor : Nat
  body_buffer_size : Nat
deriving DecidableEq

namespace PayloadBuffer

/-- Embedding of `PayloadBuffer::new`: wraps a stream, nothing read yet. -/
def new (stream : List Chunk) (buffer_size : Nat) : PayloadBuffer :=
  { pending := stream
    buf := []
    eof := false
    overflow := false
    cursor := 0
    body_buffer_size := buffer_size }

/-- Embedding of `PayloadBuffer::reset_stream`: rewinds the cursor to 0. -/
def reset_stream (p : PayloadBuffer) : PayloadBuffer :=
  { p with cursor := 0 }

/-- Embedding of `PayloadBuffer::read_buffered`.  When the cursor is behind
the buffered length, the source clones the buffer and takes
`split_to(buf.len() - cursor)`, i.e. the first `buf.len() - cursor` bytes,
then advances the cursor by the returned length. -/
def read_buffered (p : PayloadBuffer) : PayloadBuffer × Option (List Nat) :=
  if p.cursor < p.buf.length then
    let data := p.buf.take (p.buf.length - p.cursor)
    ({ p with cursor := p.cursor + data.length }, some data)
  else
    (p, none)

end PayloadBuffer

/-- Result of one poll of the payload stream, mirroring
`Poll<Option<Result<Bytes, PayloadError>>>` in the non-pending cases. -/
inductive Poll where
  | data (b : List Nat)
  | eofNone
  | overflowErr
deriving DecidableEq

namespace PayloadBuffer

/-- Embedding of `<PayloadRef as Stream>::poll_next` from
`src/modules/payload.rs`: replay from memory first, then check `eof`,
then `overflow`, then pull from the upstream stream, entering overflow
when the incoming chunk would push the buffered length past the cap. -/
def poll_next (p : PayloadBuffer) : PayloadBuffer × Poll :=
  match read_buffered p with
  | (p2, some data) => (p2, .data data)
  | (_, none) =>
    if p.eof then (p, .eofNone)
    else if p.overflow then (p, .overflowErr)
    else
      match p.pending with
      | [] => ({ p with eof := true }, .eofNone)
      | chunk :: rest =>
        if p.body_buffer_size < p.cursor + chunk.length then
          ({ p with pending := rest, overflow := true }, .overflowErr)
        else
          ({ p with
              pending := rest
              buf := p.buf ++ chunk
              cursor := p.cursor + chunk.length }, .data chunk)

/-- Termination measure for draining: at most one replay step (cursor behind
the buffer) followed by one step per pending upstream chunk. -/
def pollMeasure (p : PayloadBuffer) : Nat :=
  (if p.cursor < p.buf.length then 1 else 0) + p.pending.length

/-- Drain the payload to bytes: repeated `poll_next` until EOF or error,
concatenating the yielded chunks.  This is the Drain-to-bytes operation of
the specification, expressed as the literal read loop. -/
def drain (p : PayloadBuffer) : PayloadBuffer × Except Unit (List Nat) :=
  match h : poll_next p with
  | (p2, Poll.data d) =>
      let r := drain p2
      (r.1, r.2.map (fun bs => d ++ bs))
  | (p2, Poll.eofNone) => (p2, .ok [])
  | (p2, Poll.overflowErr) => (p2, .error ())
termination_by pollMeasure p
decreasing_by
  unfold poll_next read_buffered at h
  by_cases hc : p.cursor < p.buf.length
  · simp only [hc, if_true] at h
    cases h
    have hlen : (p.buf.take (p.buf.length - p.cursor)).length
        = p.buf.length - p.cursor := by
      simp only [List.length_take]
      omega
    have h2 : ¬ (p.cursor + (p.buf.take (p.buf.length - p.cursor)).length
        < p.buf.length) := by
      rw [hlen]; omega
    simp only [pollMeasure, h2, if_false, if_pos hc]
    omega
  · simp only [hc, if_false] at h
    by_cases he : p.eof
    · simp [he] at h
    · simp only [he, if_false, Bool.false_eq_true] at h
      by_cases ho : p.overflow
      · simp [ho] at h
      · simp only [ho, if_false, Bool.false_eq_true] at h
        cases hp : p.pending with
        | nil => rw [hp] at h; simp at h
        | cons chunk rest =>
          rw [hp] at h
          by_cases hcap : p.body_buffer_size < p.cursor + chunk.length
          · simp [hcap] at h
          · simp only [hcap, if_false] at h
            cases h
            have h2 : ¬ (p.cursor + d.length < (p.buf ++ d).length) := by
              simp only [List.length_append]
              omega
            simp only [pollMeasure, h2, if_false, hp, List.length_cons]
            have h3 : ¬ (p.cursor < p.buf.length) := hc
            simp only [h3, if_false]
            omega

end PayloadBuffer

/-! ## Module service (`src/modules/service.rs`) and Link fall-through -/

/-- The logical (head) part of a request: everything except the payload.
`ModuleService::call` clones this part for every module it tries. -/
structure HttpReq where
  method : String
  path : String
  headers : List (String × String)

/-- A produced HTTP response, as far as the chain logic inspects it. -/
structure SvcResponse where
  status : Nat
  headers : List (String × String)
  body : String
deriving DecidableEq

/-- A boxed module service.  Its behavior when handed the original
pass-through payload and when handed a buffered payload are modelled as
two functions; the buffered one threads the shared `PayloadBuffer` state. -/
structure SvcModule where
  runOrig : HttpReq → List Chunk → SvcResponse
  runBuf : HttpReq → PayloadBuffer → SvcResponse × PayloadBuffer

/-- The terminal response of `ModuleService::call` when every module fell
through: `404` with `Content-Type: text/plain` and body `"Not Found"`. -/
def notFoundResponse : SvcResponse :=
  { status := 404
    headers := [("content-type", "text/plain; charset=utf-8")]
    body := "Not Found" }

/-- Embedding of the module loop inside `ModuleService::call`: try each
module with a clone of the logical request and the shared buffered payload;
return the first non-404 response; on 404 reset the buffer and continue;
after the last module produce `notFoundResponse`.  The second component
counts how many modules were invoked. -/
def moduleServiceLoop : List SvcModule → HttpReq → PayloadBuffer → SvcResponse × Nat
  | [], _, _ => (notFoundResponse, 0)
  | m :: rest, req, pb =>
    let step := m.runBuf req pb
    if step.1.status ≠ 404 then (step.1, 1)
    else
      let next := moduleServiceLoop rest req (PayloadBuffer.reset_stream step.2)
      (next.1, next.2 + 1)

/-- Embedding of `ModuleService::call`: a single-module service passes the
request with its original payload straight through; otherwise the payload
is buffered and the module loop runs. -/
def moduleServiceCall (modules : List SvcModule) (req : HttpReq)
    (body : List Chunk) (body_buffer_size : Nat) : SvcResponse :=
  match modules with
  | [m] => m.runOrig req body
  | ms => (moduleServiceLoop ms req (PayloadBuffer.new body body_buffer_size)).1

/-- The fall-through configuration of a Link: the accumulated `next`
status predicates (`actix_chain::next::IsStatus`).  An empty list means
`next` was never overridden. -/
structure LinkCfg where
  next : List Nat
deriving DecidableEq

/-- A fresh `Link::new(..)`: no `next` predicates attached yet. -/
def LinkCfg.new : LinkCfg := { next := [] }

/-- Embedding of `link.next(IsStatus(code))`: attach one more predicate. -/
def LinkCfg.addNext (l : LinkCfg) (code : Nat) : LinkCfg :=
  { l with next := l.next ++ [code] }

/-- Modelled from the spec (§4.4): a Link with no configured predicates
falls through exactly on status 404; a Link with configured predicates
falls through exactly on the listed statuses.  (The `actix-chain` crate
that evaluates the predicates is not among the embedded sources.) -/
def LinkCfg.nextMatches (l : LinkCfg) (status : Nat) : Bool :=
  if l.next.isEmpty then status == 404 else l.next.contains status

/-- Embedding of `Module::link` from `src/config/modules.rs`: start from
the module's base link and, when a `next` override list is present, keep
the codes `StatusCode::from_u16` accepts (100..=999) and fold them on as
`IsStatus` predicates. -/
def moduleLinkCfg (base : LinkCfg) (next : Option (List Nat)) : LinkCfg :=
  match next with
  | none => base
  | some codes =>
    (codes.filter (fun code => decide (100 ≤ code) && decide (code ≤ 999))).foldl
      LinkCfg.addNext base

/-- One Link of a Chain for evaluation purposes: the wrapped handler's
behavior on the buffered payload plus its fall-through configuration. -/
structure ChainLink where
  run : HttpReq → PayloadBuffer → SvcResponse × PayloadBuffer
  cfg : LinkCfg

/-- Modelled from the spec (§4.4-4.5): Chain evaluation over Links with
configurable `next_on` sets.  It generalizes the embedded
`moduleServiceLoop` (which is the all-defaults instance, see the C2
theorem): each Link runs against the shared buffered payload; when its
status matches the Link's `next_on` set the buffer is reset and the next
Link is tried; otherwise the response is returned unchanged; when every
Link falls through the terminal Not Found response is produced. -/
def chainLoop : List ChainLink → HttpReq → PayloadBuffer → SvcResponse × Nat
  | [], _, _ => (notFoundResponse, 0)
  | l :: rest, req, pb =>
    let step := l.run req pb
    if l.cfg.nextMatches step.1.status then
      let next := chainLoop rest req (PayloadBuffer.reset_stream step.2)
      (next.1, next.2 + 1)
    else (step.1, 1)

/-! ## Chain assembly (`bob/src/main.rs` and `bob/src/config/mod.rs`) -/

/-- Modelled from the spec (§4.2): a middleware wrapper identity.  User
middleware entries come from the config list; the sanitizer and the logger
are the two wrappers `assemble_chain` appends on its own. -/
inductive MW where
  | user (i : Nat)
  | sanitizer
  | logger
deriving DecidableEq

/-- Observable effects of one request traversal: each middleware fires a
pre-handler and a post-handler effect, and each handler fires one effect. -/
inductive Ev where
  | pre (m : MW)
  | post (m : MW)
  | handler (i : Nat)
deriving DecidableEq

/-- A request handler instrumented with its effect trace. -/
abbrev THandler := HttpReq → PayloadBuffer → List Ev × SvcResponse × PayloadBuffer

/-- Modelled from the spec (§4.2): wrapping a handler in a middleware adds
the middleware's pre-handler effect before, and its post-handler effect
after, the inner handler's effects. -/
def wrapMW (m : MW) (h : THandler) : THandler :=
  fun req pb =>
    let r := h req pb
    (Ev.pre m :: (r.1 ++ [Ev.post m]), r.2.1, r.2.2)

/-- Modelled from the spec (§4.2 ordering rule): a wrapper list is applied
with index 0 outermost. -/
def applyWrappers (ws : List MW) (inner : THandler) : THandler :=
  ws.foldr wrapMW inner

/-- A content-producing module inside a directive: its identity, its
handler behavior, and its optional `next` status override. -/
structure ModuleM where
  id : Nat
  run : HttpReq → PayloadBuffer → SvcResponse × PayloadBuffer
  next : Option (List Nat)

/-- Embedding of `Component` from `bob/src/config/mod.rs`: an entry of a
directive's `construct` list is either a module or a middleware. -/
inductive ComponentM where
  | module (m : ModuleM)
  | middleware (w : MW)

/-- A Link under construction: its handler and its per-link middleware
wrappers, outermost first. -/
structure LinkM where
  handler : ModuleM
  wrappers : List MW

/-- A Link freshly created from a module (`Module::link`). -/
def LinkM.ofModule (m : ModuleM) : LinkM := { handler := m, wrappers := [] }

/-- Attach one more (innermost so far) wrapper to a Link. -/
def LinkM.addWrapper (l : LinkM) (w : MW) : LinkM :=
  { l with wrappers := l.wrappers ++ [w] }

/-- The directive sub-chain being folded by `assemble_chain`. -/
structure SubChain where
  links : List LinkM

/-- Rewrite the last element of a list, if any. -/
def updateLast (ls : List LinkM) (f : LinkM → LinkM) : List LinkM :=
  match ls with
  | [] => []
  | [l] => [f l]
  | l :: rest => l :: updateLast rest f

/-- Embedding of `Component::apply` over the modelled chain: a module
component pushes a new Link (`chain.link(m.link(spec))`); a middleware
component wraps — Modelled from the spec (§3 Link, §4.2) — the Link of the
immediately preceding handler (`m.wrap(chain, spec)`; the `actix-chain`
crate that implements `Wrappable` for `Chain` is not among the embedded
sources). -/
def ComponentM.apply (c : ComponentM) (ch : SubChain) : SubChain :=
  match c with
  | .module m => { links := ch.links ++ [LinkM.ofModule m] }
  | .middleware w => { links := updateLast ch.links (fun l => l.addWrapper w) }

/-- Embedding of the per-directive fold in `assemble_chain`:
`directive.construct.iter().fold(Chain::new(prefix), |chain, c| c.apply(chain, &spec))`. -/
def assembleDirective (cs : List ComponentM) : SubChain :=
  cs.foldl (fun ch c => c.apply ch) { links := [] }

/-- Whether a construct entry is a middleware. -/
def ComponentM.isMiddleware : ComponentM → Bool
  | .middleware _ => true
  | .module _ => false

/-- The middleware values at the head of a construct list, up to the next
module entry. -/
def leadingWrappers (cs : List ComponentM) : List MW :=
  (cs.takeWhile ComponentM.isMiddleware).filterMap (fun c =>
    match c with
    | .middleware w => some w
    | .module _ => none)

/-- The claim's reading of a directive: each handler starts a Link, and
the middleware elements that follow it (before the next handler) are
exactly that Link's wrappers. -/
def groupComponents : List ComponentM → List LinkM
  | [] => []
  | .middleware _ :: rest => groupComponents rest
  | .module m :: rest =>
      { handler := m, wrappers := leadingWrappers rest }
        :: groupComponents (rest.dropWhile ComponentM.isMiddleware)
termination_by cs => cs.length
decreasing_by
  · simp
  · have := (List.dropWhile_sublist (l := rest) ComponentM.isMiddleware).length_le
    simp only [List.length_cons]
    omega

/-- A directive of the server configuration. -/
structure DirectiveM where
  location : Option String
  construct : List ComponentM

/-- The slice of `ServerConfig` that `assemble_chain` consumes. -/
structure ServerConfigM where
  server_name : List String
  middleware : List MW
  directives : List DirectiveM
  sanitize_errors : Option Bool
  logging_disable : Bool

/-- The assembled virtual-server chain: host guards, one entry per
directive (its location and its sub-chain of Links), and the server-global
wrappers, outermost first. -/
structure ChainM where
  guards : List String
  links : List (String × SubChain)
  wrappers : List MW

/-- Embedding of `assemble_chain` from `bob/src/main.rs`: fold the
`server_name` guards, push one Link per directive (location with leading
slashes trimmed, construct folded through `Component::apply`), fold the
`middleware` list as chain wrappers in written order, then append the
sanitizer (`sanitize_errors` defaults to true) and the logger (unless
logging is disabled). -/
def assembleChain (cfg : ServerConfigM) : ChainM :=
  let chain : ChainM := { guards := [], links := [], wrappers := [] }
  let chain := cfg.server_name.foldl
    (fun ch g => { ch with guards := ch.guards ++ [g] }) chain
  let chain := cfg.directives.foldl
    (fun ch d =>
      let loc := (d.location.getD "").dropWhile (fun c => c = '/')
      { ch with links := ch.links ++ [(loc, assembleDirective d.construct)] })
    chain
  let chain := cfg.middleware.foldl
    (fun ch m => { ch with wrappers := ch.wrappers ++ [m] }) chain
  let chain :=
    if cfg.sanitize_errors.getD true then
      { chain with wrappers := chain.wrappers ++ [MW.sanitizer] }
    else chain
  if cfg.logging_disable then chain
  else { chain with wrappers := chain.wrappers ++ [MW.logger] }

/-- A Link's instrumented handler: its per-link wrappers applied outermost
first around the handler effect. -/
def LinkM.toTHandler (l : LinkM) : THandler :=
  applyWrappers l.wrappers (fun req pb =>
    let r := l.handler.run req pb
    ([Ev.handler l.handler.id], r.1, r.2))

/-- Modelled from the spec (§4.4-4.5): traversal of a sub-chain's Links
with fall-through on the per-link `next_on` set and payload reset between
Links, accumulating effect traces. -/
def subChainEval : List LinkM → HttpReq → PayloadBuffer → List Ev × SvcResponse × PayloadBuffer
  | [], _, pb => ([], notFoundResponse, pb)
  | l :: rest, req, pb =>
    let r := l.toTHandler req pb
    if (moduleLinkCfg LinkCfg.new l.handler.next).nextMatches r.2.1.status then
      let r2 := subChainEval rest req (PayloadBuffer.reset_stream r.2.2)
      (r.1 ++ r2.1, r2.2)
    else r

/-- Modelled from the spec (§4.5): traversal of the directive Links of the
assembled chain; a directive Link falls through on the default 404. -/
def chainWalk : List (String × SubChain) → HttpReq → PayloadBuffer → List Ev × SvcResponse × PayloadBuffer
  | [], _, pb => ([], notFoundResponse, pb)
  | l :: rest, req, pb =>
    let r := subChainEval l.2.links req pb
    if r.2.1.status == 404 then
      let r2 := chainWalk rest req (PayloadBuffer.reset_stream r.2.2)
      (r.1 ++ r2.1, r2.2)
    else r

/-- Modelled from the spec (§4.6): evaluating the assembled chain applies
the server-global wrappers, outermost first, around the Link traversal. -/
def ChainM.eval (c : ChainM) : THandler :=
  applyWrappers c.wrappers (fun req pb => chainWalk c.links req pb)

/-! ## URL path parsing (`src/modules/utils/path_buf.rs`) -/

/-- Embedding of `UriSegmentError` from `src/modules/utils/error.rs`; the
offending character is kept as its byte. -/
inductive UriSegmentError where
  | BadStart (c : Nat)
  | BadChar (c : Nat)
  | BadEnd (c : Nat)
  | NotValidUtf8
deriving DecidableEq

/-- Value of an ASCII hex digit byte, as used by percent-decoding. -/
def hexVal (c : Nat) : Option Nat :=
  if 48 ≤ c ∧ c ≤ 57 then some (c - 48)
  else if 65 ≤ c ∧ c ≤ 70 then some (c - 55)
  else if 97 ≤ c ∧ c ≤ 102 then some (c - 87)
  else none

/-- Embedding of `percent_encoding::percent_decode_str` over the path's
bytes: a `%` followed by two hex digits decodes to one byte; any other
`%` is kept literally. -/
def percentDecode : List Nat → List Nat
  | [] => []
  | 37 :: h :: l :: rest =>
    match hexVal h, hexVal l with
    | some a, some b => (16 * a + b) :: percentDecode rest
    | _, _ => 37 :: percentDecode (h :: l :: rest)
  | c :: rest => c :: percentDecode rest

/-- A UTF-8 continuation byte. -/
def contByte (b : Nat) : Bool := decide (128 ≤ b) && decide (b ≤ 191)

/-- Strict UTF-8 validity of a byte sequence, as `str::from_utf8` checks it
(no overlong forms, no surrogates, maximum U+10FFFF). -/
def validUtf8 : List Nat → Bool
  | [] => true
  | b :: rest =>
    if b < 128 then validUtf8 rest
    else if 194 ≤ b ∧ b ≤ 223 then
      match rest with
      | b2 :: r => contByte b2 && validUtf8 r
      | [] => false
    else if b = 224 then
      match rest with
      | b2 :: b3 :: r => (decide (160 ≤ b2) && decide (b2 ≤ 191)) && contByte b3 && validUtf8 r
      | _ => false
    else if 225 ≤ b ∧ b ≤ 236 then
      match rest with
      | b2 :: b3 :: r => contByte b2 && contByte b3 && validUtf8 r
      | _ => false
    else if b = 237 then
      match rest with
      | b2 :: b3 :: r => (decide (128 ≤ b2) && decide (b2 ≤ 159)) && contByte b3 && validUtf8 r
      | _ => false
    else if 238 ≤ b ∧ b ≤ 239 then
      match rest with
      | b2 :: b3 :: r => contByte b2 && contByte b3 && validUtf8 r
      | _ => false
    else if b = 240 then
      match rest with
      | b2 :: b3 :: b4 :: r =>
        (decide (144 ≤ b2) && decide (b2 ≤ 191)) && contByte b3 && contByte b4 && validUtf8 r
      | _ => false
    else if 241 ≤ b ∧ b ≤ 243 then
      match rest with
      | b2 :: b3 :: b4 :: r => contByte b2 && contByte b3 && contByte b4 && validUtf8 r
      | _ => false
    else if b = 244 then
      match rest with
      | b2 :: b3 :: b4 :: r =>
        (decide (128 ≤ b2) && decide (b2 ≤ 143)) && contByte b3 && contByte b4 && validUtf8 r
      | _ => false
    else false

/-- Rust `Path::components` normalization drops `.` entries except a
leading one; this trims the trailing entries that are not components.
Used to model `PathBuf::pop`, which truncates to `Path::parent`. -/
def trimDotsRight (bs : List (List Nat)) : List (List Nat) :=
  match bs with
  | [] => []
  | b0 :: rest => b0 :: (rest.reverse.dropWhile (fun s => decide (s = [46]))).reverse

/-- Embedding of `PathBuf::pop` on the buffer built by `parse_path` (whose
entries are single pushed segments, never empty and never `..`): drop the
last component together with the trailing `.` entries that Rust path
normalization attaches to it; a pop on an empty buffer is a no-op. -/
def popComponent (bs : List (List Nat)) : List (List Nat) :=
  trimDotsRight (trimDotsRight bs).dropLast

/-- Embedding of the segment loop of `PathBufWrap::parse_path` (the
`cfg!(windows)` arms are compiled out on the embedded unix target):
`..` pops, a leading `.` is rejected unless hidden files are allowed,
a leading `*` and a trailing `:`/`>`/`<` are rejected, empty segments are
skipped, and anything else is pushed. -/
def processSegments (hidden : Bool) : List (List Nat) → List (List Nat) → Except UriSegmentError (List (List Nat))
  | [], buf => .ok buf
  | seg :: rest, buf =>
    if seg = [46, 46] then processSegments hidden rest (popComponent buf)
    else if hidden = false ∧ seg.head? = some 46 then .error (.BadStart 46)
    else if seg.head? = some 42 then .error (.BadStart 42)
    else if seg.getLast? = some 58 then .error (.BadEnd 58)
    else if seg.getLast? = some 62 then .error (.BadEnd 62)
    else if seg.getLast? = some 60 then .error (.BadEnd 60)
    else if seg = [] then processSegments hidden rest buf
    else processSegments hidden rest (buf ++ [seg])

/-- Outcome of `parse_path`: a successfully built buffer of pushed
segments, a rejection error, or a crash of the final
`assert!(matches!(component, Component::Normal(_)))` sanity loop. -/
inductive ParseOutcome where
  | ok (segs : List (List Nat))
  | err (e : UriSegmentError)
  | panicked
deriving DecidableEq

/-- Embedding of `PathBufWrap::parse_path` from
`src/modules/utils/path_buf.rs` over the path's bytes: percent-decode the
whole path, reject when the decoded bytes are not UTF-8, reject when
decoding created a new `/` (an encoded `%2F`), then run the segment loop.
The final sanity loop asserts every component of the built buffer is a
`Normal` component; a buffer whose first entry is a literal `.` yields a
`CurDir` component and the assertion panics.  (The companion
`assert!(i < segment_count)` can never fire: the number of buffer entries
is at most the number of pushes, which equals the decremented
`segment_count`, so it is not modelled.) -/
def parse_path (path : List Nat) (hidden_files : Bool) : ParseOutcome :=
  let decoded := percentDecode path
  if validUtf8 decoded = false then .err .NotValidUtf8
  else if path.count 47 + 1 ≠ decoded.count 47 + 1 then .err (.BadChar 47)
  else
    match processSegments hidden_files (decoded.splitOn 47) [] with
    | .error e => .err e
    | .ok buf => if buf.head? = some [46] then .panicked else .ok buf

/-- Filesystem meaning of resolving a relative segment list under a root
directory: `..` ascends, `.` stays, anything else descends.  Used to state
that accepted parses never escape the root. -/
def fsResolve (root : List (List Nat)) (segs : List (List Nat)) : List (List Nat) :=
  segs.foldl
    (fun acc s =>
      if s = [46, 46] then acc.dropLast
      else if s = [46] then acc
      else acc ++ [s])
    root

/-! ## TLS SNI resolver (`src/tls.rs`) -/

/-- The slice of a `ServerConfig` that `TlsResolver::new` consumes.  A
`server_name` guard is modelled as its match predicate on host names, and
the TLS material of a listener as the numeric identity of the certified
key `certified_key` loads from it. -/
structure ServerConfigT where
  disable : Bool
  listen : List (Option Nat)
  server_name : List (String → Bool)

/-- Embedding of `TlsEntry`: the owning server's domain guards and the
certified key. -/
structure TlsEntry where
  domains : List (String → Bool)
  key : Nat

/-- Embedding of `TlsEntry::matches`: an empty guard list matches every
name, otherwise any guard may match. -/
def TlsEntry.matches (e : TlsEntry) (name : String) : Bool :=
  e.domains.isEmpty || e.domains.any (fun d => d name)

/-- Embedding of `TlsResolver::new`: one entry per `ssl`-bearing listener
of every server in the configuration list, in order.  (The source iterates
`config.iter()` with no filter on `disable`.) -/
def tlsResolverNew (config : List ServerConfigT) : List TlsEntry :=
  config.flatMap (fun srv =>
    (srv.listen.filterMap id).map (fun key => { domains := srv.server_name, key := key }))

/-- Embedding of `<TlsResolver as ResolvesServerCert>::resolve`: the SNI
name defaults to the empty string, the first matching entry wins, and
`none` rejects the handshake. -/
def tlsResolve (entries : List TlsEntry) (sni : Option String) : Option Nat :=
  (entries.find? (fun e => e.matches (sni.getD ""))).map (fun e => e.key)

/-- The resolver pool exactly as the claim words it: built only from the
servers that are enabled (`disable = false`). -/
def tlsResolverNewClaimed (config : List ServerConfigT) : List TlsEntry :=
  tlsResolverNew (config.filter (fun c => !c.disable))

/-- The `(server_name, tls_material)` pairs of every virtual server that
declares TLS, written from the amended claim's words. -/
def tlsPairs : List ServerConfigT → List (List (String → Bool) × Nat)
  | [] => []
  | srv :: rest => (srv.listen.filterMap id).map (fun k => (srv.server_name, k)) ++ tlsPairs rest

/-- Guard-list semantics from the claim's words: an empty guard list
matches every name. -/
def guardsMatch (ds : List (String → Bool)) (s : String) : Bool :=
  ds.isEmpty || ds.any (fun d => d s)

/-- First-match lookup over guard/key pairs, from the amended claim's
words. -/
def firstMatch : List (List (String → Bool) × Nat) → String → Option Nat
  | [], _ => none
  | p :: rest, s => if guardsMatch p.1 s then some p.2 else firstMatch rest s

/-- The amended claim's resolver: first pair whose guards match the SNI
name (empty string when absent), over the pairs of all servers that
declare TLS, disabled or not. -/
def amendedSniResolve (config : List ServerConfigT) (sni : Option String) : Option Nat :=
  firstMatch (tlsPairs config) (sni.getD "")

/-- A concrete configuration: a disabled TLS server with key 1 listed
before an enabled TLS server with key 2, both with no name guards. -/
def cexTlsConfig : List ServerConfigT :=
  [ { disable := true, listen := [some 1], server_name := [] }
  , { disable := false, listen := [some 2], server_name := [] } ]

/-! ## Redirect handler (`src/config/modules.rs`, module `redirect`) -/

/-- Embedding of the redirect module configuration. -/
structure RedirectConfig where
  redirect : String
  status_code : Option Nat

/-- An actix `Route`: `web::get()` attaches a GET method guard to the
route before the handler is installed. -/
structure RouteM where
  methodGET : Bool
  response : SvcResponse

/-- Embedding of `redirect::Config::factory`: status defaults to 302,
`StatusCode::from_u16` panics outside 100..=999 (modelled as `none`), and
the produced route is registered through `actix_web::web::get()` with a
response carrying the status and a `Location` header. -/
def redirectFactory (cfg : RedirectConfig) : Option RouteM :=
  let sc := cfg.status_code.getD 302
  if 100 ≤ sc ∧ sc ≤ 999 then
    some { methodGET := true
           response := { status := sc, headers := [("location", cfg.redirect)], body := "" } }
  else none

/-- Outcome of dispatching a request to a route. -/
inductive RouteResult where
  | matched (r : SvcResponse)
  | noMatch
deriving DecidableEq

/-- Modelled from the spec: actix route dispatch honors the route's method
guard; a request whose method fails the guard does not reach the handler
and falls to the surrounding default (404) machinery. -/
def routeCall (r : RouteM) (method : String) : RouteResult :=
  if r.methodGET = true ∧ method ≠ "GET" then .noMatch else .matched r.response

/-! ## ModSecurity middleware (`src/middleware/modsecurity/mod.rs`) -/

/-- One call into the ModSecurity transaction, in the order the middleware
makes them. -/
inductive MsEvent where
  | procUri (uri method version : String)
  | addReqHeader (k v : String)
  | procReqHeaders
  | appendReqBody (b : List Nat)
  | addRespHeader (k v : String)
  | procRespHeaders (code : Nat)
  | appendRespBody (b : List Nat)
deriving DecidableEq

/-- The request as the ModSecurity middleware sees it. -/
structure MsRequest where
  uri : String
  method : String
  version : String
  headers : List (String × String)
  body : List Nat

/-- The response as the ModSecurity middleware sees it. -/
structure MsResponse where
  status : Nat
  headers : List (String × String)
  body : List Nat
deriving DecidableEq

/-- A rule-engine intervention: an optional redirect URL and a status. -/
structure MsIntervention where
  url : Option String
  status : Nat

/-- The intervention redirect the middleware builds:
`HttpResponse::TemporaryRedirect()` with a `Location` header. -/
def msRedirectResponse (url : String) : MsResponse :=
  { status := 307, headers := [("location", url)], body := [] }

/-- A status-only response (`HttpResponse::new(code)`). -/
def msStatusResponse (code : Nat) : MsResponse :=
  { status := code, headers := [], body := [] }

/-- Embedding of `ModSecurityMiddleware::call`.  The transaction is
modelled as the list of scan events fed to it; the external rule engine's
intervention decision is an arbitrary function of those events.  The flow
follows the source: process the URI, scan and process the request headers,
buffer the request body up to `max_request_body_size` (exceeding yields
`413 Payload Too Large`), append it as request body, run the inner
service, scan and process the response headers, buffer the response body
up to `max_response_body_size` (exceeding yields `507 Insufficient
Storage`), feed the response body to `append_request_body` (as the source
does), then honor an intervention as a redirect or a status-only response,
else return the inner response with its body restored. -/
def modSecurityCall (maxReq maxResp : Nat)
    (interv : List MsEvent → Option MsIntervention)
    (inner : MsRequest → MsResponse) (req : MsRequest) : MsResponse × List MsEvent :=
  let ev1 := MsEvent.procUri req.uri req.method req.version ::
    (req.headers.map (fun h => MsEvent.addReqHeader h.1 h.2) ++ [MsEvent.procReqHeaders])
  if maxReq < req.body.length then
    (msStatusResponse 413, ev1)
  else
    let ev2 := ev1 ++ [MsEvent.appendReqBody req.body]
    let res := inner req
    let ev3 := ev2 ++ res.headers.map (fun h => MsEvent.addRespHeader h.1 h.2)
      ++ [MsEvent.procRespHeaders res.status]
    if maxResp < res.body.length then
      (msStatusResponse 507, ev3)
    else
      let ev4 := ev3 ++ [MsEvent.appendReqBody res.body]
      match interv ev4 with
      | some i =>
        match i.url with
        | some u => (msRedirectResponse u, ev4)
        | none => (msStatusResponse i.status, ev4)
      | none => (res, ev4)

/-! ## Theorems -/

namespace PayloadBuffer

theorem drain_data {p p2 : PayloadBuffer} {d : List Nat}
    (h : poll_next p = (p2, .data d)) :
    drain p = ((drain p2).1, (drain p2).2.map (fun bs => d ++ bs)) := by
  rw [drain]
  split
  · rename_i p3 d3 heq
    rw [h] at heq
    cases heq
    rfl
  · rename_i p3 heq
    rw [h] at heq
    simp at heq
  · rename_i p3 heq
    rw [h] at heq
    simp at heq

theorem drain_eof {p p2 : PayloadBuffer}
    (h : poll_next p = (p2, .eofNone)) : drain p = (p2, .ok []) := by
  rw [drain]
  split
  · rename_i p3 d3 heq
    rw [h] at heq
    simp at heq
  · rename_i p3 heq
    rw [h] at heq
    cases heq
    rfl
  · rename_i p3 heq
    rw [h] at heq
    simp at heq

theorem drain_overflow {p p2 : PayloadBuffer}
    (h : poll_next p = (p2, .overflowErr)) : drain p = (p2, .error ()) := by
  rw [drain]
  split
  · rename_i p3 d3 heq
    rw [h] at heq
    simp at heq
  · rename_i p3 heq
    rw [h] at heq
    simp at heq
  · rename_i p3 heq
    rw [h] at heq
    cases heq
    rfl

theorem poll_next_replay {p : PayloadBuffer} (hc : p.cursor < p.buf.length) :
    poll_next p
      = ({ p with cursor := p.buf.length }, .data (p.buf.take (p.buf.length - p.cursor))) := by
  unfold poll_next read_buffered
  simp only [hc, if_true]
  have hlen : (p.buf.take (p.buf.length - p.cursor)).length = p.buf.length - p.cursor := by
    simp only [List.length_take]
    omega
  rw [hlen]
  have h2 : p.cursor + (p.buf.length - p.cursor) = p.buf.length := by omega
  rw [h2]

theorem poll_next_at_eof {p : PayloadBuffer} (hc : ¬ p.cursor < p.buf.length)
    (he : p.eof = true) : poll_next p = (p, .eofNone) := by
  unfold poll_next read_buffered
  simp [hc, he]

theorem poll_next_at_overflow {p : PayloadBuffer} (hc : ¬ p.cursor < p.buf.length)
    (he : p.eof = false) (ho : p.overflow = true) : poll_next p = (p, .overflowErr) := by
  unfold poll_next read_buffered
  simp [hc, he, ho]

theorem poll_next_exhausted {p : PayloadBuffer} (hc : ¬ p.cursor < p.buf.length)
    (he : p.eof = false) (ho : p.overflow = false) (hp : p.pending = []) :
    poll_next p = ({ p with eof := true }, .eofNone) := by
  unfold poll_next read_buffered
  simp [hc, he, ho, hp]

theorem poll_next_pull_over {p : PayloadBuffer} {c : Chunk} {rest : List Chunk}
    (hc : ¬ p.cursor < p.buf.length) (he : p.eof = false) (ho : p.overflow = false)
    (hp : p.pending = c :: rest) (hcap : p.body_buffer_size < p.cursor + c.length) :
    poll_next p = ({ p with pending := rest, overflow := true }, .overflowErr) := by
  unfold poll_next read_buffered
  simp [hc, he, ho, hp, hcap]

theorem poll_next_pull_ok {p : PayloadBuffer} {c : Chunk} {rest : List Chunk}
    (hc : ¬ p.cursor < p.buf.length) (he : p.eof = false) (ho : p.overflow = false)
    (hp : p.pending = c :: rest) (hcap : ¬ p.body_buffer_size < p.cursor + c.length) :
    poll_next p
      = ({ p with
            pending := rest
            buf := p.buf ++ c
            cursor := p.cursor + c.length }, .data c) := by
  unfold poll_next read_buffered
  simp [hc, he, ho, hp, hcap]

theorem drain_stream (cs : List Chunk) : ∀ p : PayloadBuffer,
    p.cursor = p.buf.length → p.eof = false → p.overflow = false →
    p.pending = cs → p.buf.length + cs.flatten.length ≤ p.body_buffer_size →
    drain p
      = (⟨[], p.buf ++ cs.flatten, true, false, p.buf.length + cs.flatten.length,
          p.body_buffer_size⟩, .ok cs.flatten) := by
  induction cs with
  | nil =>
    intro p hcur he ho hp hcap
    obtain ⟨pend, buf, eo, ov, cur, cap⟩ := p
    simp only at hcur he ho hp
    subst hcur he ho hp
    have hc : ¬ (buf.length : Nat) < buf.length := by omega
    rw [drain_eof (poll_next_exhausted hc rfl rfl rfl)]
    simp

  | cons c cs ih =>
    intro p hcur he ho hp hcap
    obtain ⟨pend, buf, eo, ov, cur, cap⟩ := p
    simp only at hcur he ho hp hcap
    subst hcur he ho hp
    simp only [List.flatten_cons, List.length_append] at hcap
    have hc : ¬ (buf.length : Nat) < buf.length := by omega
    have hcap2 : ¬ cap < buf.length + c.length := by omega
    rw [drain_data (poll_next_pull_ok hc rfl rfl rfl hcap2)]
    have ih2 := ih ⟨cs, buf ++ c, false, false, buf.length + c.length, cap⟩
      (by simp) rfl rfl rfl
      (by simp only [List.length_append]; omega)
    rw [ih2]
    simp only [List.flatten_cons, List.append_assoc, List.length_append, Except.map]
    rw [Nat.add_assoc]

theorem drain_replay (B : List Nat) (cap : Nat) :
    drain ⟨[], B, true, false, 0, cap⟩ = (⟨[], B, true, false, B.length, cap⟩, .ok B) := by
  cases hB : B with
  | nil =>
    have hc : ¬ (0 : Nat) < ([] : List Nat).length := by simp
    rw [drain_eof (poll_next_at_eof (p := ⟨[], [], true, false, 0, cap⟩) hc rfl)]
    rfl
  | cons b bs =>
    have hc : (0 : Nat) < (b :: bs).length := by simp
    have h1 := poll_next_replay (p := ⟨[], b :: bs, true, false, 0, cap⟩) hc
    simp only [Nat.sub_zero, List.take_length] at h1
    rw [drain_data h1]
    have hc2 : ¬ ((b :: bs).length : Nat) < (b :: bs).length := by omega
    rw [drain_eof (poll_next_at_eof (p := ⟨[], b :: bs, true, false, (b :: bs).length, cap⟩) hc2 rfl)]
    simp [Except.map]

theorem drain_stream_overflow (cs : List Chunk) : ∀ p : PayloadBuffer,
    p.cursor = p.buf.length → p.eof = false → p.overflow = false →
    p.pending = cs → p.cursor ≤ p.body_buffer_size →
    p.body_buffer_size < p.cursor + cs.flatten.length →
    ∃ p2, drain p = (p2, .error ()) ∧ p2.overflow = true := by
  induction cs with
  | nil =>
    intro p hcur he ho hp hle hgt
    simp only [List.flatten_nil, List.length_nil, Nat.add_zero] at hgt
    omega
  | cons c cs ih =>
    intro p hcur he ho hp hle hgt
    have hc : ¬ p.cursor < p.buf.length := by omega
    by_cases hcap : p.body_buffer_size < p.cursor + c.length
    · refine ⟨{ p with pending := cs, overflow := true }, ?_, rfl⟩
      exact drain_overflow (poll_next_pull_over hc he ho hp hcap)
    · obtain ⟨p3, hd, ho3⟩ := ih { p with pending := cs, buf := p.buf ++ c, cursor := p.cursor + c.length }
        (by simp only [List.length_append]; omega) he ho rfl (by simpa using hcap)
        (by simp only [List.flatten_cons, List.length_append] at hgt ⊢; omega)
      refine ⟨p3, ?_, ho3⟩
      rw [drain_data (poll_next_pull_ok hc he ho hp hcap), hd]
      rfl

end PayloadBuffer

open PayloadBuffer in
/-- Draining a freshly attached buffer whose stream fits the cap yields
all the bytes and leaves them buffered at EOF. -/
theorem drain_new (cs : List Chunk) (cap : Nat) (hle : cs.flatten.length ≤ cap) :
    drain (PayloadBuffer.new cs cap)
      = (⟨[], cs.flatten, true, false, cs.flatten.length, cap⟩, .ok cs.flatten) := by
  have h1 := drain_stream cs ⟨cs, [], false, false, 0, cap⟩ rfl rfl rfl rfl
    (by simp only [List.length_nil, Nat.zero_add]; exact hle)
  simpa using h1

open PayloadBuffer in
/-- C5: for a request body (a chunked stream) whose total size fits the
soft cap, draining the buffer, resetting it, and draining again yields the
same byte sequence both times; when the total size exceeds the soft cap
the first drain yields the overflow error. -/
theorem c5_drain_reset_drain (cs : List Chunk) (cap : Nat) :
    (cs.flatten.length ≤ cap →
      (drain (PayloadBuffer.new cs cap)).2 = .ok cs.flatten ∧
      (drain (reset_stream (drain (PayloadBuffer.new cs cap)).1)).2 = .ok cs.flatten) ∧
    (cap < cs.flatten.length →
      ∃ p2, drain (PayloadBuffer.new cs cap) = (p2, .error ()) ∧ p2.overflow = true) := by
  constructor
  · intro hle
    rw [drain_new cs cap hle]
    refine ⟨rfl, ?_⟩
    show (drain (reset_stream
      (⟨[], cs.flatten, true, false, cs.flatten.length, cap⟩ : PayloadBuffer))).2
        = Except.ok cs.flatten
    have h2 : reset_stream
        (⟨[], cs.flatten, true, false, cs.flatten.length, cap⟩ : PayloadBuffer)
        = ⟨[], cs.flatten, true, false, 0, cap⟩ := rfl
    rw [h2, drain_replay]
  · intro hgt
    exact drain_stream_overflow cs ⟨cs, [], false, false, 0, cap⟩ rfl rfl rfl rfl
      (by simp) (by simpa using hgt)

open PayloadBuffer in
/-- Witness for C5 at concrete inputs: the stream `[[1,2],[3]]` under cap 3
drains to `[1,2,3]` twice across a reset, and the stream `[[1],[2,3]]`
under cap 2 overflows on the first drain. -/
theorem c5_drain_reset_drain_witness :
    ((drain (PayloadBuffer.new [[1,2],[3]] 3)).2 = .ok [1,2,3] ∧
     (drain (reset_stream (drain (PayloadBuffer.new [[1,2],[3]] 3)).1)).2 = .ok [1,2,3]) ∧
    (∃ p2, drain (PayloadBuffer.new [[1],[2,3]] 2) = (p2, .error ()) ∧ p2.overflow = true) := by
  constructor
  · have h := (c5_drain_reset_drain [[1,2],[3]] 3).1 (by decide)
    simpa using h
  · exact (c5_drain_reset_drain [[1],[2,3]] 2).2 (by decide)

open PayloadBuffer in
/-- C4, amended: a pull whose chunk would push the buffered length past
the soft cap sets the overflow flag and fails; the overflow flag, once
set, is never cleared by a read or a reset; and every read issued with the
overflow flag set fails with the overflow error once the replay cursor has
reached the buffered length.  (Reads issued after a reset first replay the
already-buffered bytes successfully; see the counterexample.) -/
theorem c4_overflow_policy :
    (∀ (p : PayloadBuffer) (c : Chunk) (rest : List Chunk),
      p.eof = false → p.overflow = false → ¬ p.cursor < p.buf.length →
      p.pending = c :: rest → p.body_buffer_size < p.cursor + c.length →
      poll_next p = ({ p with pending := rest, overflow := true }, .overflowErr)) ∧
    (∀ p : PayloadBuffer, p.overflow = true →
      (poll_next p).1.overflow = true ∧ (reset_stream p).overflow = true) ∧
    (∀ p : PayloadBuffer, p.overflow = true → p.eof = false →
      ¬ p.cursor < p.buf.length → poll_next p = (p, .overflowErr)) := by
  refine ⟨?_, ?_, ?_⟩
  · intro p c rest he ho hc hp hcap
    exact poll_next_pull_over hc he ho hp hcap
  · intro p ho
    refine ⟨?_, ho⟩
    unfold poll_next read_buffered
    by_cases hc : p.cursor < p.buf.length
    · simp [hc, ho]
    · by_cases he : p.eof
      · simp [hc, he, ho]
      · simp [hc, he, ho]
  · intro p ho he hc
    exact poll_next_at_overflow hc he ho

open PayloadBuffer in
/-- Witness for C4 at concrete reachable states: the state reached after
buffering `[1]` from the stream `[[1],[2,3]]` under cap 2 overflows on the
next pull, keeps the flag across a read and a reset, and fails every read
once the replay is exhausted. -/
theorem c4_overflow_policy_witness :
    poll_next ⟨[[2,3]], [1], false, false, 1, 2⟩
      = (⟨[], [1], false, true, 1, 2⟩, .overflowErr) ∧
    ((poll_next ⟨[], [1], false, true, 1, 2⟩).1.overflow = true ∧
     (reset_stream ⟨[], [1], false, true, 1, 2⟩).overflow = true) ∧
    poll_next ⟨[], [1], false, true, 1, 2⟩ = (⟨[], [1], false, true, 1, 2⟩, .overflowErr) := by
  refine ⟨?_, ?_, ?_⟩
  · exact c4_overflow_policy.1 ⟨[[2,3]], [1], false, false, 1, 2⟩ [2,3] []
      rfl rfl (by decide) rfl (by decide)
  · exact c4_overflow_policy.2.1 ⟨[], [1], false, true, 1, 2⟩ rfl
  · exact c4_overflow_policy.2.2 ⟨[], [1], false, true, 1, 2⟩ rfl rfl (by decide)

open PayloadBuffer in
/-- Counterexample to C4 as stated: run the stream `[[1],[2,3]]` under
cap 2.  The second read overflows and sets the flag, yet after a reset the
next read succeeds with the replayed buffered chunk `[1]` instead of
failing with the overflow error. -/
theorem c4_counterexample :
    ((poll_next (poll_next (PayloadBuffer.new [[1],[2,3]] 2)).1).1.overflow = true) ∧
    ((poll_next (poll_next (PayloadBuffer.new [[1],[2,3]] 2)).1).2 = Poll.overflowErr) ∧
    ((poll_next (reset_stream
        (poll_next (poll_next (PayloadBuffer.new [[1],[2,3]] 2)).1).1)).2
      = Poll.data [1]) := by
  decide

/-- C10: a single-module chain passes the request with its original
unbuffered payload straight to the module and returns the module's
response unchanged whatever its status: no body buffer is created (the
result does not depend on `body_buffer_size`), no fall-through happens on
404, and the terminal Not Found response is never substituted. -/
theorem c10_single_module_passthrough (m : SvcModule) (req : HttpReq)
    (body : List Chunk) (size : Nat) :
    moduleServiceCall [m] req body size = m.runOrig req body := rfl

/-- C2: in a chain evaluation, a Link whose wrapped handler's status is in
its `next_on` set hands the same logical request, with the shared payload
buffer reset for replay, to the next Link; otherwise the response is
returned unchanged and no later Link runs.  The `next_on` set of a Link
whose `next` was left unspecified is exactly `{404}`, and the embedded
`ModuleService::call` loop is exactly the all-defaults instance of this
evaluation. -/
theorem c2_link_fallthrough :
    (∀ (l : ChainLink) (rest : List ChainLink) (req : HttpReq) (pb : PayloadBuffer),
      (l.cfg.nextMatches (l.run req pb).1.status = true →
        chainLoop (l :: rest) req pb
          = ((chainLoop rest req (PayloadBuffer.reset_stream (l.run req pb).2)).1,
             (chainLoop rest req (PayloadBuffer.reset_stream (l.run req pb).2)).2 + 1)) ∧
      (l.cfg.nextMatches (l.run req pb).1.status = false →
        chainLoop (l :: rest) req pb = ((l.run req pb).1, 1))) ∧
    (∀ s : Nat, (moduleLinkCfg LinkCfg.new none).nextMatches s = (s == 404)) ∧
    (∀ (ms : List SvcModule) (req : HttpReq) (pb : PayloadBuffer),
      moduleServiceLoop ms req pb
        = chainLoop (ms.map (fun m => ⟨m.runBuf, LinkCfg.new⟩)) req pb) := by
  refine ⟨?_, ?_, ?_⟩
  · intro l rest req pb
    constructor
    · intro h
      simp only [chainLoop, h, if_true]
    · intro h
      simp only [chainLoop, h, Bool.false_eq_true, if_false]
  · intro s
    rfl
  · intro ms
    induction ms with
    | nil => intro req pb; rfl
    | cons m ms ih =>
      intro req pb
      simp only [moduleServiceLoop, chainLoop, List.map_cons]
      by_cases h : (m.runBuf req pb).1.status = 404
      · simp [LinkCfg.nextMatches, LinkCfg.new, h, ih]
      · simp [LinkCfg.nextMatches, LinkCfg.new, h, ih]

/-- Witness for C2 at concrete inputs: a defaulted Link returning 404
falls through to the Not Found terminal with one more hop; a Link
returning 200 stops the chain; the unspecified `next` set matches exactly
404; and the module loop agrees with the chain evaluation on a concrete
module list. -/
theorem c2_link_fallthrough_witness :
    chainLoop [⟨fun _ pb => (notFoundResponse, pb), LinkCfg.new⟩]
        ⟨"GET", "/", []⟩ (PayloadBuffer.new [] 0) = (notFoundResponse, 1) ∧
    chainLoop [⟨fun _ pb => (⟨200, [], "ok"⟩, pb), LinkCfg.new⟩,
        ⟨fun _ pb => (notFoundResponse, pb), LinkCfg.new⟩]
        ⟨"GET", "/", []⟩ (PayloadBuffer.new [] 0) = (⟨200, [], "ok"⟩, 1) ∧
    (moduleLinkCfg LinkCfg.new none).nextMatches 404 = true ∧
    (moduleLinkCfg LinkCfg.new none).nextMatches 200 = false := by
  refine ⟨?_, ?_, ?_, ?_⟩
  · have h := (c2_link_fallthrough.1 ⟨fun _ pb => (notFoundResponse, pb), LinkCfg.new⟩
      [] ⟨"GET", "/", []⟩ (PayloadBuffer.new [] 0)).1 rfl
    simpa using h
  · have h := (c2_link_fallthrough.1 ⟨fun _ pb => ((⟨200, [], "ok"⟩ : SvcResponse), pb), LinkCfg.new⟩
      [⟨fun _ pb => (notFoundResponse, pb), LinkCfg.new⟩]
      ⟨"GET", "/", []⟩ (PayloadBuffer.new [] 0)).2 rfl
    simpa using h
  · exact (c2_link_fallthrough.2.1 404).trans rfl
  · exact (c2_link_fallthrough.2.1 200).trans rfl

theorem updateLast_append (ls : List LinkM) (l0 : LinkM) (f : LinkM → LinkM) :
    updateLast (ls ++ [l0]) f = ls ++ [f l0] := by
  induction ls with
  | nil => rfl
  | cons a ls ih =>
    cases ls with
    | nil => rfl
    | cons b ls2 =>
      show a :: updateLast ((b :: ls2) ++ [l0]) f = a :: ((b :: ls2) ++ [f l0])
      rw [ih]

theorem dropLast_updateLast (ls : List LinkM) (f : LinkM → LinkM) :
    (updateLast ls f).dropLast = ls.dropLast := by
  induction ls with
  | nil => rfl
  | cons a ls ih =>
    cases ls with
    | nil => rfl
    | cons b ls2 =>
      show (a :: updateLast (b :: ls2) f).dropLast = (a :: b :: ls2).dropLast
      cases hls : updateLast (b :: ls2) f with
      | nil => cases ls2 <;> simp [updateLast] at hls
      | cons u us =>
        rw [List.dropLast_cons₂, ← hls, ih]
        cases ls2 <;> rfl

theorem assembleDirective_fold (cs : List ComponentM) :
    ∀ (ls : List LinkM) (m : ModuleM) (ws : List MW),
    (cs.foldl (fun (ch : SubChain) (c : ComponentM) => c.apply ch)
        (⟨ls ++ [⟨m, ws⟩]⟩ : SubChain)).links
      = ls ++ ({ handler := m, wrappers := ws ++ leadingWrappers cs }
          :: groupComponents (cs.dropWhile ComponentM.isMiddleware)) := by
  induction cs with
  | nil =>
    intro ls m ws
    simp [leadingWrappers, groupComponents]
  | cons c cs ih =>
    intro ls m ws
    cases c with
    | middleware w =>
      have happ : (ComponentM.middleware w).apply ⟨ls ++ [⟨m, ws⟩]⟩
          = ⟨ls ++ [⟨m, ws ++ [w]⟩]⟩ := by
        simp [ComponentM.apply, updateLast_append, LinkM.addWrapper]
      simp only [List.foldl_cons, happ, ih]
      simp [leadingWrappers, ComponentM.isMiddleware, List.takeWhile_cons,
        List.dropWhile_cons, List.append_assoc]
    | module m2 =>
      have happ : (ComponentM.module m2).apply ⟨ls ++ [⟨m, ws⟩]⟩
          = ⟨(ls ++ [⟨m, ws⟩]) ++ [⟨m2, []⟩]⟩ := by
        simp [ComponentM.apply, LinkM.ofModule]
      simp only [List.foldl_cons, happ, ih]
      simp [leadingWrappers, groupComponents, ComponentM.isMiddleware,
        List.takeWhile_cons, List.dropWhile_cons]

/-- C3: in a directive's mixed construct list, every middleware element
attaches exactly to the Link of the immediately preceding handler: the
assembled Link list equals the grouping that gives each handler the
middleware run that follows it, and appending a middleware to a construct
leaves every earlier Link untouched. -/
theorem c3_middleware_attaches_to_preceding_link :
    (∀ (m : ModuleM) (cs : List ComponentM),
      (assembleDirective (ComponentM.module m :: cs)).links
        = groupComponents (ComponentM.module m :: cs)) ∧
    (∀ (ys : List ComponentM) (w : MW),
      ((assembleDirective (ys ++ [ComponentM.middleware w])).links).dropLast
        = ((assembleDirective ys).links).dropLast) := by
  constructor
  · intro m cs
    have h := assembleDirective_fold cs [] m []
    show (cs.foldl (fun (ch : SubChain) (c : ComponentM) => c.apply ch)
        (⟨[] ++ [⟨m, []⟩]⟩ : SubChain)).links = _
    rw [h]
    simp [groupComponents]
  · intro ys w
    unfold assembleDirective
    rw [List.foldl_append]
    simp only [List.foldl_cons, List.foldl_nil, ComponentM.apply]
    exact dropLast_updateLast _ _

theorem applyWrappers_trace (ws : List MW) (inner : THandler) (req : HttpReq)
    (pb : PayloadBuffer) :
    (applyWrappers ws inner req pb).1
      = ws.map Ev.pre ++ (inner req pb).1 ++ (ws.map Ev.post).reverse := by
  induction ws with
  | nil => simp [applyWrappers]
  | cons w ws ih =>
    show (wrapMW w (applyWrappers ws inner) req pb).1 = _
    simp only [wrapMW, ih, List.map_cons, List.reverse_cons]
    simp [List.append_assoc]

theorem foldl_guard_wrappers (gs : List String) : ∀ ch : ChainM,
    (gs.foldl (fun ch g => { ch with guards := ch.guards ++ [g] }) ch).wrappers
      = ch.wrappers := by
  induction gs with
  | nil => intro ch; rfl
  | cons g gs ih => intro ch; exact ih _

theorem foldl_directive_wrappers (ds : List DirectiveM) : ∀ ch : ChainM,
    (ds.foldl (fun ch d =>
        let loc := (d.location.getD "").dropWhile (fun c => c = '/')
        { ch with links := ch.links ++ [(loc, assembleDirective d.construct)] })
      ch).wrappers = ch.wrappers := by
  induction ds with
  | nil => intro ch; rfl
  | cons d ds ih => intro ch; exact ih _

theorem foldl_mw_wrappers (ms : List MW) : ∀ ch : ChainM,
    (ms.foldl (fun ch m => { ch with wrappers := ch.wrappers ++ [m] }) ch).wrappers
      = ch.wrappers ++ ms := by
  induction ms with
  | nil => intro ch; simp
  | cons m ms ih =>
    intro ch
    rw [List.foldl_cons, ih]
    simp

theorem wrappers_if_else_append (b : Bool) (ch : ChainM) (ws : List MW) :
    (if b then ch else { ch with wrappers := ch.wrappers ++ ws }).wrappers
      = ch.wrappers ++ (if b then [] else ws) := by
  cases b <;> simp

theorem wrappers_if_append (b : Bool) (ch : ChainM) (ws : List MW) :
    (if b then { ch with wrappers := ch.wrappers ++ ws } else ch).wrappers
      = ch.wrappers ++ (if b then ws else []) := by
  cases b <;> simp

theorem assembleChain_wrappers (cfg : ServerConfigM) :
    (assembleChain cfg).wrappers
      = cfg.middleware
        ++ ((if cfg.sanitize_errors.getD true then [MW.sanitizer] else [])
            ++ (if cfg.logging_disable then [] else [MW.logger])) := by
  unfold assembleChain
  rw [wrappers_if_else_append, wrappers_if_append, foldl_mw_wrappers,
    foldl_directive_wrappers, foldl_guard_wrappers]
  simp [List.append_assoc]

/-- C1: for every virtual server with server-global middleware list
`[m1, ..., mk]` and every request handled by its assembled chain, `m1` is
the outermost wrapper: the trace opens with the pre-handler effects in the
order `m1, ..., mk` and closes with the post-handler effects in reverse
order, with everything else in between. -/
theorem c1_server_middleware_order (cfg : ServerConfigM) (req : HttpReq)
    (pb : PayloadBuffer) :
    ∃ inner : List Ev,
      ((assembleChain cfg).eval req pb).1
        = cfg.middleware.map Ev.pre ++ inner ++ (cfg.middleware.map Ev.post).reverse := by
  have hW := assembleChain_wrappers cfg
  refine ⟨((if cfg.sanitize_errors.getD true then [MW.sanitizer] else [])
      ++ (if cfg.logging_disable then [] else [MW.logger])).map Ev.pre
    ++ (chainWalk (assembleChain cfg).links req pb).1
    ++ (((if cfg.sanitize_errors.getD true then [MW.sanitizer] else [])
      ++ (if cfg.logging_disable then [] else [MW.logger])).map Ev.post).reverse, ?_⟩
  show (applyWrappers (assembleChain cfg).wrappers
      (fun req pb => chainWalk (assembleChain cfg).links req pb) req pb).1 = _
  rw [applyWrappers_trace, hW]
  simp [List.map_append, List.reverse_append, List.append_assoc]

theorem trimDotsRight_subset (bs : List (List Nat)) :
    ∀ s ∈ trimDotsRight bs, s ∈ bs := by
  cases bs with
  | nil => simp [trimDotsRight]
  | cons b0 rest =>
    intro s hs
    simp only [trimDotsRight, List.mem_cons] at hs
    cases hs with
    | inl h => exact h ▸ List.mem_cons_self b0 rest
    | inr h =>
      have h1 : s ∈ rest.reverse.dropWhile (fun s => decide (s = [46])) := by
        rw [← List.mem_reverse]
        exact h
      have h2 : s ∈ rest.reverse :=
        (List.dropWhile_sublist (fun s => decide (s = [46]))).subset h1
      exact List.mem_cons_of_mem b0 (List.mem_reverse.mp h2)

theorem popComponent_subset (bs : List (List Nat)) :
    ∀ s ∈ popComponent bs, s ∈ bs := by
  intro s hs
  have h1 := trimDotsRight_subset (trimDotsRight bs).dropLast s hs
  have h2 : s ∈ trimDotsRight bs := (List.dropLast_sublist _).subset h1
  exact trimDotsRight_subset bs s h2

/-- Entries of the buffer built by the segment loop are never `..` and
never empty: pops only remove entries and only such segments are pushed. -/
theorem processSegments_good (hidden : Bool) :
    ∀ (segs : List (List Nat)) (buf out : List (List Nat)),
    (∀ s ∈ buf, s ≠ [46, 46] ∧ s ≠ []) →
    processSegments hidden segs buf = .ok out →
    ∀ s ∈ out, s ≠ [46, 46] ∧ s ≠ [] := by
  intro segs
  induction segs with
  | nil =>
    intro buf out hbuf h
    cases h
    exact hbuf
  | cons seg rest ih =>
    intro buf out hbuf h
    unfold processSegments at h
    by_cases h1 : seg = [46, 46]
    · simp only [h1, if_true] at h
      refine ih _ _ ?_ h
      intro s hs
      exact hbuf s (popComponent_subset buf s hs)
    · simp only [h1, if_false] at h
      by_cases h2 : hidden = false ∧ seg.head? = some 46
      · simp [h2] at h
      · simp only [h2, if_false] at h
        by_cases h3 : seg.head? = some 42
        · simp [h3] at h
        · simp only [h3, if_false] at h
          by_cases h4 : seg.getLast? = some 58
          · simp [h4] at h
          · simp only [h4, if_false] at h
            by_cases h5 : seg.getLast? = some 62
            · simp [h5] at h
            · simp only [h5, if_false] at h
              by_cases h6 : seg.getLast? = some 60
              · simp [h6] at h
              · simp only [h6, if_false] at h
                by_cases h7 : seg = []
                · simp only [h7, if_true] at h
                  exact ih _ _ hbuf h
                · simp only [h7, if_false] at h
                  refine ih _ _ ?_ h
                  intro s hs
                  rcases List.mem_append.mp hs with hmem | hmem
                  · exact hbuf s hmem
                  · simp only [List.mem_singleton] at hmem
                    exact hmem ▸ ⟨h1, h7⟩

theorem parse_path_ok_processSegments {path : List Nat} {hidden : Bool}
    {segs : List (List Nat)} (h : parse_path path hidden = .ok segs) :
    processSegments hidden ((percentDecode path).splitOn 47) [] = .ok segs := by
  unfold parse_path at h
  by_cases h1 : validUtf8 (percentDecode path) = false
  · simp [h1] at h
  · simp only [h1, if_false] at h
    by_cases h2 : path.count 47 + 1 ≠ (percentDecode path).count 47 + 1
    · simp [h2] at h
    · simp only [h2, if_false] at h
      cases hps : processSegments hidden ((percentDecode path).splitOn 47) [] with
      | error e => rw [hps] at h; simp at h
      | ok buf =>
        rw [hps] at h
        by_cases h3 : buf.head? = some [46]
        · simp [h3] at h
        · simp only [h3, if_false] at h
          cases h
          rfl

theorem fsResolve_prefix (segs : List (List Nat)) :
    ∀ root : List (List Nat), (∀ s ∈ segs, s ≠ [46, 46]) →
    ∃ t, fsResolve root segs = root ++ t := by
  induction segs with
  | nil =>
    intro root _
    exact ⟨[], by simp [fsResolve]⟩
  | cons s segs ih =>
    intro root hgood
    have hs : s ≠ [46, 46] := hgood s (List.mem_cons_self s segs)
    have hrest : ∀ x ∈ segs, x ≠ [46, 46] := fun x hx =>
      hgood x (List.mem_cons_of_mem s hx)
    by_cases hdot : s = [46]
    · obtain ⟨t, ht⟩ := ih root hrest
      refine ⟨t, ?_⟩
      simp only [fsResolve, List.foldl_cons, hs, if_false, hdot, if_true]
      exact ht
    · obtain ⟨t, ht⟩ := ih (root ++ [s]) hrest
      refine ⟨[s] ++ t, ?_⟩
      simp only [fsResolve, List.foldl_cons, hs, if_false, hdot]
      rw [← List.append_assoc]
      exact ht

/-- Accepted parses of the File Handler never escape the root: the
resolved on-disk path extends `root` (no `..` survives into the buffer,
and `..` segments of the URL only popped previously pushed segments). -/
theorem parse_path_ok_no_escape (path : List Nat) (hidden : Bool)
    (segs : List (List Nat)) (h : parse_path path hidden = .ok segs)
    (root : List (List Nat)) :
    ∃ t, fsResolve root segs = root ++ t := by
  have hps := parse_path_ok_processSegments h
  have hgood := processSegments_good hidden ((percentDecode path).splitOn 47) [] segs
    (by intro s hs; simp at hs) hps
  exact fsResolve_prefix segs root (fun s hs => (hgood s hs).1)

/-- C6: with `hidden_files = true`, the URL paths `.` and `./a` are
neither rejected with a `UriSegmentError` nor resolved to a path under the
root: the final sanity loop of `parse_path` asserts every component of the
built buffer is `Normal`, the leading literal `.` is a `CurDir` component,
and the assertion panics. -/
theorem c6_hidden_dot_assert_panic :
    parse_path [46] true = .panicked ∧ parse_path [46, 47, 97] true = .panicked := by
  decide

theorem firstMatch_append (xs ys : List (List (String → Bool) × Nat)) (s : String) :
    firstMatch (xs ++ ys) s
      = match firstMatch xs s with
        | some k => some k
        | none => firstMatch ys s := by
  induction xs with
  | nil => rfl
  | cons x xs ih =>
    simp only [List.cons_append, firstMatch]
    by_cases h : guardsMatch x.1 s
    · simp [h]
    · simp [h, ih]

theorem tlsResolve_entries (ds : List (String → Bool)) (s : String) :
    ∀ ks : List Nat,
    tlsResolve (ks.map (fun key => { domains := ds, key := key })) (some s)
      = firstMatch (ks.map (fun k => (ds, k))) s := by
  intro ks
  induction ks with
  | nil => rfl
  | cons k ks ih =>
    by_cases h : guardsMatch ds s = true
    · have hm : TlsEntry.matches { domains := ds, key := k } s = true := h
      show ((({ domains := ds, key := k } : TlsEntry) ::
          ks.map (fun key => { domains := ds, key := key })).find?
            (fun e => e.matches s)).map (fun e => e.key)
        = firstMatch ((ds, k) :: ks.map (fun k => (ds, k))) s
      rw [List.find?_cons_of_pos (p := fun (e : TlsEntry) => e.matches s) _ hm]
      simp only [firstMatch]
      rw [if_pos h]
      rfl
    · have hm : ¬ TlsEntry.matches { domains := ds, key := k } s = true := h
      show ((({ domains := ds, key := k } : TlsEntry) ::
          ks.map (fun key => { domains := ds, key := key })).find?
            (fun e => e.matches s)).map (fun e => e.key)
        = firstMatch ((ds, k) :: ks.map (fun k => (ds, k))) s
      rw [List.find?_cons_of_neg (p := fun (e : TlsEntry) => e.matches s) _ hm]
      simp only [firstMatch]
      rw [if_neg h]
      exact ih

theorem tlsResolve_append (es fs : List TlsEntry) (sni : Option String) :
    tlsResolve (es ++ fs) sni
      = match tlsResolve es sni with
        | some k => some k
        | none => tlsResolve fs sni := by
  induction es with
  | nil => rfl
  | cons e es ih =>
    by_cases h : e.matches (sni.getD "") = true
    · show ((e :: (es ++ fs)).find? (fun e => e.matches (sni.getD ""))).map (fun e => e.key) = _
      rw [List.find?_cons_of_pos (p := fun (e : TlsEntry) => e.matches (sni.getD "")) _ h]
      have h2 : tlsResolve (e :: es) sni = some e.key := by
        show ((e :: es).find? (fun e => e.matches (sni.getD ""))).map (fun e => e.key) = _
        rw [List.find?_cons_of_pos (p := fun (e : TlsEntry) => e.matches (sni.getD "")) _ h]
        rfl
      rw [h2]
      rfl
    · show ((e :: (es ++ fs)).find? (fun e => e.matches (sni.getD ""))).map (fun e => e.key) = _
      rw [List.find?_cons_of_neg (p := fun (e : TlsEntry) => e.matches (sni.getD "")) _ h]
      have h2 : tlsResolve (e :: es) sni = tlsResolve es sni := by
        show ((e :: es).find? (fun e => e.matches (sni.getD ""))).map (fun e => e.key) = _
        rw [List.find?_cons_of_neg (p := fun (e : TlsEntry) => e.matches (sni.getD "")) _ h]
        rfl
      rw [h2]
      exact ih

/-- C7, amended: the SNI resolver is built from the `(server_name,
tls_material)` pairs of every virtual server that declares TLS — disabled
servers included — and a handshake with SNI name `s` (the empty string
when the extension is absent) receives the certified key of the first
entry whose guard list matches `s`, an empty guard list matching every
name; with no matching entry the resolver yields nothing and the
handshake is rejected. -/
theorem c7_sni_first_match (config : List ServerConfigT) (sni : Option String) :
    tlsResolve (tlsResolverNew config) sni = amendedSniResolve config sni := by
  induction config with
  | nil => rfl
  | cons srv rest ih =>
    have hsplit : tlsResolverNew (srv :: rest)
        = (srv.listen.filterMap id).map
            (fun key => { domains := srv.server_name, key := key })
          ++ tlsResolverNew rest := by
      simp [tlsResolverNew]
    rw [hsplit, tlsResolve_append]
    have hpairs : amendedSniResolve (srv :: rest) sni
        = match firstMatch ((srv.listen.filterMap id).map (fun k => (srv.server_name, k)))
              (sni.getD "") with
          | some k => some k
          | none => amendedSniResolve rest sni := by
      simp only [amendedSniResolve, tlsPairs]
      rw [firstMatch_append]
    rw [hpairs]
    have hent : tlsResolve ((srv.listen.filterMap id).map
          (fun key => { domains := srv.server_name, key := key })) sni
        = firstMatch ((srv.listen.filterMap id).map (fun k => (srv.server_name, k)))
            (sni.getD "") := by
      cases sni with
      | none => exact tlsResolve_entries srv.server_name "" (srv.listen.filterMap id)
      | some s => exact tlsResolve_entries srv.server_name s (srv.listen.filterMap id)
    rw [hent, ih]

/-- Counterexample to C7 as stated: in `cexTlsConfig` the first server is
disabled yet declares TLS with key 1; the resolver embedded from the code
returns key 1 for any handshake, while the claim's enabled-servers-only
pool would return key 2. -/
theorem c7_counterexample :
    tlsResolve (tlsResolverNew cexTlsConfig) (some "example.com") = some 1 ∧
    tlsResolve (tlsResolverNewClaimed cexTlsConfig) (some "example.com") = some 2 ∧
    (cexTlsConfig.head?.map (fun c => c.disable)) = some true := by
  exact ⟨rfl, rfl, rfl⟩

/-- C9, amended: for every GET request to a configured Redirect Handler,
the route (whose construction succeeds exactly when the configured status
is a valid status code) responds with the configured status — 302 when
unspecified — and a `Location` header equal to the target URI. -/
theorem c9_redirect_get (cfg : RedirectConfig) (r : RouteM)
    (h : redirectFactory cfg = some r) :
    routeCall r "GET"
      = .matched { status := cfg.status_code.getD 302
                   headers := [("location", cfg.redirect)]
                   body := "" } := by
  unfold redirectFactory at h
  by_cases hv : 100 ≤ cfg.status_code.getD 302 ∧ cfg.status_code.getD 302 ≤ 999
  · rw [if_pos hv] at h
    cases h
    simp [routeCall]
  · rw [if_neg hv] at h
    cases h

/-- Witness for C9 at a concrete input: a redirect handler with target
`/n` and no configured status answers a GET with 302 and
`Location: /n`. -/
theorem c9_redirect_get_witness :
    routeCall { methodGET := true
                response := { status := 302, headers := [("location", "/n")], body := "" } }
        "GET"
      = .matched { status := 302, headers := [("location", "/n")], body := "" } := by
  have h := c9_redirect_get { redirect := "/n", status_code := none }
    { methodGET := true
      response := { status := 302, headers := [("location", "/n")], body := "" } }
    rfl
  simpa using h

/-- Counterexample to C9 as stated: the redirect route is registered via
`actix_web::web::get()`, so a POST request fails the route's method guard
and does not receive the redirect response at all, although the claim
promises the redirect regardless of the request method. -/
theorem c9_counterexample :
    redirectFactory { redirect := "/new", status_code := some 301 }
      = some { methodGET := true
               response := { status := 301, headers := [("location", "/new")], body := "" } } ∧
    (redirectFactory { redirect := "/new", status_code := some 301 }).map
        (fun r => routeCall r "POST")
      = some RouteResult.noMatch := by
  exact ⟨rfl, rfl⟩

/-- C8: on a request with body `[1]` whose inner handler answers 200 with
body `[9,9]`, the middleware scans the URI, the request headers, the
buffered request body and the response headers, but feeds the buffered
response body to `append_request_body` — no `append_response_body` call
ever happens — so the response body is never scanned as a response body.
The remaining behaviors of the claim hold: a request body over the
request-side cap yields 413, a response body over the response-side cap
yields 507, and an intervention yields a redirect or a status-only
response bypassing the inner handler's output. -/
theorem c8_modsecurity_response_body_misrouted :
    (modSecurityCall 100 100 (fun _ => none)
        (fun _ => { status := 200, headers := [], body := [9, 9] })
        { uri := "/x", method := "GET", version := "1.1", headers := [], body := [1] }
      = ({ status := 200, headers := [], body := [9, 9] },
         [.procUri "/x" "GET" "1.1", .procReqHeaders, .appendReqBody [1],
          .procRespHeaders 200, .appendReqBody [9, 9]])) ∧
    (MsEvent.appendRespBody [9, 9] ∉
      [MsEvent.procUri "/x" "GET" "1.1", .procReqHeaders, .appendReqBody [1],
       .procRespHeaders 200, .appendReqBody [9, 9]]) ∧
    ((modSecurityCall 1 100 (fun _ => none)
        (fun _ => { status := 200, headers := [], body := [] })
        { uri := "/x", method := "GET", version := "1.1", headers := [], body := [1, 2] }).1
      = msStatusResponse 413) ∧
    ((modSecurityCall 100 1 (fun _ => none)
        (fun _ => { status := 200, headers := [], body := [9, 9] })
        { uri := "/x", method := "GET", version := "1.1", headers := [], body := [] }).1
      = msStatusResponse 507) ∧
    ((modSecurityCall 100 100 (fun _ => some { url := some "/blocked", status := 403 })
        (fun _ => { status := 200, headers := [], body := [] })
        { uri := "/x", method := "GET", version := "1.1", headers := [], body := [] }).1
      = msRedirectResponse "/blocked") ∧
    ((modSecurityCall 100 100 (fun _ => some { url := none, status := 403 })
        (fun _ => { status := 200, headers := [], body := [] })
        { uri := "/x", method := "GET", version := "1.1", headers := [], body := [] }).1
      = msStatusResponse 403) := by
  refine ⟨rfl, by decide, rfl, rfl, rfl, rfl⟩

end Bob
